import Mathlib

/-!
# Verification of the invoice-migration and daily-report core

Shallow embedding of the description parser, sheet synchronizer, ambiguous
date reconciliation, and due/overdue report classifier of the repository
(`src/job/workMigrationJob.js`, `src/job/dailyReportJob.js`, `src/index.js`),
together with theorems settling the specification claims.

JavaScript strings are modelled as `List Char`.  A missing (`undefined`)
cell of a sheet row is modelled by the empty string: for the strings this
code manipulates, JS truthiness is exactly non-emptiness, which holds for
both `''` and `undefined`.
-/

namespace AnsMigration

/-- JS strings, modelled as lists of characters. -/
abbrev Str := List Char

/-- The whitespace characters relevant here (ASCII part of JS `\s` / `trim`). -/
def isWS (c : Char) : Bool :=
  c == ' ' || c == '\t' || c == '\n' || c == '\r' || c == '\x0b' || c == '\x0c'

def trimLeft (s : Str) : Str := s.dropWhile isWS

def trimRight (s : Str) : Str := (s.reverse.dropWhile isWS).reverse

/-- JS `String.prototype.trim`. -/
def jsTrim (s : Str) : Str := trimRight (trimLeft s)

/-- JS `String.prototype.split(sep)` for a one-character separator: all
(possibly empty) chunks between occurrences of `sep`, in order. -/
def splitOn (sep : Char) : Str → List Str
  | [] => [[]]
  | c :: rest =>
    match splitOn sep rest with
    | [] => [[c]]
    | s :: ss => if c == sep then [] :: s :: ss else (c :: s) :: ss

/-- Numeric value of a decimal digit character. -/
def digitVal (c : Char) : Nat := c.toNat - '0'.toNat

/-- After the first digit of a candidate `^\d+\.` match: consume further
digits, then require a literal dot. -/
def digitsThenDot : Str → Bool
  | [] => false
  | c :: rest => if c.isDigit then digitsThenDot rest else c == '.'

/-- The regex test `/^\d+\./.test(line.trim())` of `parseDescription`. -/
def testNumbered (line : Str) : Bool :=
  match jsTrim line with
  | [] => false
  | c :: rest => c.isDigit && digitsThenDot rest

/-- `str.replace(/^\d+\.\s*/, '')`: drop a leading run of digits followed by
a dot and any whitespace; if the string does not start that way, return it
unchanged. -/
def stripNumbered (s : Str) : Str :=
  match s.takeWhile Char.isDigit, s.dropWhile Char.isDigit with
  | _ :: _, '.' :: r => r.dropWhile isWS
  | _, _ => s

/-- Model of JS `String.prototype.toLowerCase` on the characters this
repository manipulates: ASCII letters, the Latin-1 uppercase range, `Đ`, and
the Latin Extended Additional block carrying the Vietnamese precomposed
letters (paired even = uppercase, odd = lowercase).  Other characters are
returned unchanged. -/
def jsToLower (c : Char) : Char :=
  if 'A' ≤ c ∧ c ≤ 'Z' then Char.ofNat (c.toNat + 32)
  else if 0xC0 ≤ c.toNat ∧ c.toNat ≤ 0xDE ∧ c.toNat ≠ 0xD7 then Char.ofNat (c.toNat + 32)
  else if c.toNat = 0x110 then Char.ofNat 0x111
  else if 0x1E00 ≤ c.toNat ∧ c.toNat ≤ 0x1E95 ∧ c.toNat % 2 = 0 then Char.ofNat (c.toNat + 1)
  else if 0x1EA0 ≤ c.toNat ∧ c.toNat ≤ 0x1EFF ∧ c.toNat % 2 = 0 then Char.ofNat (c.toNat + 1)
  else c

/-- JS `String.prototype.startsWith`. -/
def beginsWith (pre s : Str) : Bool := s.take pre.length == pre

/-- `str.replace(pat, '')` for a plain (case-sensitive) string pattern:
remove the first occurrence of `pat`, if any. -/
def removeFirstStr (pat : Str) : Str → Str
  | [] => []
  | c :: rest =>
    if beginsWith pat (c :: rest) then (c :: rest).drop pat.length
    else c :: removeFirstStr pat rest

/-- Case-insensitive occurrence test at the front of `s` (`pat` is given in
lowercase). -/
def beginsWithCI (pat s : Str) : Bool := (s.take pat.length).map jsToLower == pat

/-- `str.replace(/pat/i, '')`: remove the first case-insensitive occurrence
of the lowercase pattern `pat`, if any. -/
def removeFirstCI (pat : Str) : Str → Str
  | [] => []
  | c :: rest =>
    if beginsWithCI pat (c :: rest) then (c :: rest).drop pat.length
    else c :: removeFirstCI pat rest

/-- One product+task pair extracted from an invoice note. -/
structure WorkItem where
  productName : Str
  work : Str
deriving DecidableEq, Repr

/-- Result shape of `parseDescription`. -/
structure ParsedDescription where
  items : List WorkItem
  paymentStatus : Str
  returnDate : Str
deriving DecidableEq, Repr

def emptyParse : ParsedDescription := ⟨[], [], []⟩

/-- The return-date marker, lowercase (regex `/hẹn trả:/i`). -/
def hennTraMarker : Str := "hẹn trả:".toList

/-- The return-date marker as written exactly (legacy `src/index.js`). -/
def hennTraExact : Str := "Hẹn trả:".toList

/-- Body of the `lines.forEach` loop of `workMigrationJob.parseDescription`:
numbered item, exact payment markers, case-insensitive return-date marker,
otherwise ignore. -/
def processLine (r : ParsedDescription) (line : Str) : ParsedDescription :=
  if testNumbered line then
    let parts := (splitOn '+' line).map jsTrim
    let productName := jsTrim (stripNumbered (parts.headD []))
    let work := if parts.length > 1 then parts.getD 1 [] else []
    { r with items := r.items ++ [⟨productName, work⟩] }
  else if jsTrim line = "ĐTT".toList then
    { r with paymentStatus := "Đã thanh toán".toList }
  else if jsTrim line = "CTT".toList then
    { r with paymentStatus := "Chưa thanh toán".toList }
  else if beginsWith hennTraMarker ((jsTrim line).map jsToLower) then
    { r with returnDate := jsTrim (removeFirstCI hennTraMarker line) }
  else r

/-- The non-empty lines of a description: `split('\n')` then drop lines that
are blank after trimming. -/
def descLines (description : Str) : List Str :=
  (splitOn '\n' description).filter (fun l => jsTrim l ≠ [])

/-- `workMigrationJob.parseDescription` (also `fetchInvoices`' parser). -/
def parseDescription (description : Str) : ParsedDescription :=
  if description = [] then emptyParse
  else (descLines description).foldl processLine emptyParse

/-- Body of the `lines.forEach` loop of the legacy `parseDescription` in
`src/index.js`: identical except that the return-date marker is matched
case-sensitively (`startsWith('Hẹn trả:')` / `replace('Hẹn trả:', '')`). -/
def processLineIndex (r : ParsedDescription) (line : Str) : ParsedDescription :=
  if testNumbered line then
    let parts := (splitOn '+' line).map jsTrim
    let productName := jsTrim (stripNumbered (parts.headD []))
    let work := if parts.length > 1 then parts.getD 1 [] else []
    { r with items := r.items ++ [⟨productName, work⟩] }
  else if jsTrim line = "ĐTT".toList then
    { r with paymentStatus := "Đã thanh toán".toList }
  else if jsTrim line = "CTT".toList then
    { r with paymentStatus := "Chưa thanh toán".toList }
  else if beginsWith hennTraExact (jsTrim line) then
    { r with returnDate := jsTrim (removeFirstStr hennTraExact line) }
  else r

/-- The legacy `parseDescription` of `src/index.js`. -/
def parseDescriptionIndex (description : Str) : ParsedDescription :=
  if description = [] then emptyParse
  else (descLines description).foldl processLineIndex emptyParse

/-! ## Sheet synchronization (`workMigrationJob.addToGoogleSheet`) -/

/-- One sheet row: the list of its cells (column A at index 0). -/
abbrev Row := List Str

/-- `row[i]` with JS semantics: out-of-range access gives `undefined`,
modelled as the empty string. -/
def cellAt (i : Nat) (row : Row) : Str := row.getD i []

/-- The dropdown value lists of the configuration (`src/config.js`). -/
structure SheetConfig where
  statusValues : List Str
  peopleValues : List Str
  delayValues : List Str
deriving Repr

/-- The concrete configuration values of `src/config.js`. -/
def theConfig : SheetConfig where
  statusValues := ["Chưa làm", "Đang làm", "Phát sinh", "Hoàn thành", "Đóng đơn", "Huỷ đơn"].map
    String.toList
  peopleValues := ["Chọn người làm", "Minh", "Huy", "Thắng", "Vườn Đào", "Hà Nội", "Nam Định"].map
    String.toList
  delayValues := ["Chọn", "Delay lần 1", "Delay lần 2", "Delay lần 3"].map String.toList

/-- Components of a JS `Date` as observed through `getDate` / `getMonth() + 1`
/ `getFullYear` / `getHours` / `getMinutes` in the local timezone.  ISO-string
parsing and timezone conversion happen inside the `Date` constructor and are
outside this model. -/
structure JsDate where
  year : Nat
  month : Nat
  day : Nat
  hour : Nat
  minute : Nat
deriving DecidableEq, Repr

/-- Decimal representation of a number, as JS `String(n)`. -/
def natToStr (n : Nat) : Str := (toString n).toList

/-- JS `String(n).padStart(2, '0')`. -/
def pad2 (n : Nat) : Str := List.replicate (2 - (natToStr n).length) '0' ++ natToStr n

/-- `workMigrationJob.formatDate`: `MM/dd/yyyy HH:mm`. -/
def formatDateTime (d : JsDate) : Str :=
  pad2 d.month ++ ['/'] ++ pad2 d.day ++ ['/'] ++ natToStr d.year ++ [' '] ++
    pad2 d.hour ++ [':'] ++ pad2 d.minute

/-- `dailyReportJob.formatDate`: `MM/DD/YYYY`. -/
def formatDateOnly (d : JsDate) : Str :=
  pad2 d.month ++ ['/'] ++ pad2 d.day ++ ['/'] ++ natToStr d.year

/-- A normalized invoice record as produced by `fetchInvoices`. -/
structure Invoice where
  code : Str
  purchaseDate : JsDate
  items : List WorkItem
  paymentStatus : Str
  returnDate : Str
deriving DecidableEq, Repr

/-- Extraction of the existing-keys set from column A
(`addToGoogleSheet`): skip the header, keep truthy first cells. -/
def extractExistingCodes (colA : List Row) : List Str :=
  if colA.length > 1 then
    (colA.drop 1).filterMap (fun row =>
      match row.headD [] with
      | [] => none
      | c :: cs => some (c :: cs))
  else []

/-- The dedup filter of `addToGoogleSheet`:
`invoices.filter(invoice => !existingCodes.has(invoice.code))`. -/
def filterNewInvoices (invoices : List Invoice) (existingCodes : List Str) : List Invoice :=
  invoices.filter (fun inv => decide (inv.code ∉ existingCodes))

/-- Number of invoices added in a run (the count the job logs as
`Adding N new invoices`). -/
def insertedCount (invoices : List Invoice) (existingCodes : List Str) : Nat :=
  (filterNewInvoices invoices existingCodes).length

/-- Number of input invoices skipped by the dedup filter. -/
def skippedCount (invoices : List Invoice) (existingCodes : List Str) : Nat :=
  invoices.length - insertedCount invoices existingCodes

/-- Row expansion for one surviving invoice (`newInvoices.forEach` body of
`addToGoogleSheet`): one 12-cell row per work item, or a single placeholder
row when the invoice has no items. -/
def rowsForInvoice (cfg : SheetConfig) (inv : Invoice) : List Row :=
  let purchaseDate := formatDateTime inv.purchaseDate
  let returnDateAsText := if inv.returnDate ≠ [] then '\'' :: inv.returnDate else []
  if inv.items ≠ [] then
    inv.items.map (fun item =>
      [inv.code, purchaseDate, returnDateAsText, item.productName, item.work,
       cfg.statusValues.headD [], [], cfg.peopleValues.headD [], inv.paymentStatus, [],
       cfg.delayValues.headD [], []])
  else
    [[inv.code, purchaseDate, returnDateAsText, [], [],
      cfg.statusValues.headD [], [], cfg.peopleValues.headD [], inv.paymentStatus, [],
      cfg.delayValues.headD [], []]]

/-- All rows written by one sync run, in order. -/
def buildRows (cfg : SheetConfig) (newInvoices : List Invoice) : List Row :=
  newInvoices.flatMap (rowsForInvoice cfg)

/-! ## Due/overdue classification (`dailyReportJob.readDueTodayData`) -/

/-- Today's day-of-month and (1-based) month, as read off `new Date()`. -/
structure Today where
  day : Nat
  month : Nat
deriving DecidableEq, Repr

/-- Month capture of the regex `(\d{1,2})\/(\d{1,2})` after the slash:
one digit, extended to two when a second digit follows. -/
def monthAfterSlash : Str → Option Nat
  | [] => none
  | m1 :: rest =>
    if m1.isDigit then
      some (match rest with
        | m2 :: _ => if m2.isDigit then 10 * digitVal m1 + digitVal m2 else digitVal m1
        | [] => digitVal m1)
    else none

/-- Attempt to match `(\d{1,2})\/(\d{1,2})` at the current position. -/
def dayMonthAt : Str → Option (Nat × Nat)
  | [] => none
  | d1 :: rest =>
    if d1.isDigit then
      match rest with
      | '/' :: rest2 => (monthAfterSlash rest2).map (fun m => (digitVal d1, m))
      | d2 :: '/' :: rest2 =>
        if d2.isDigit then
          (monthAfterSlash rest2).map (fun m => (10 * digitVal d1 + digitVal d2, m))
        else none
      | _ => none
    else none

/-- Leftmost match of `(\d{1,2})\/(\d{1,2})`, as `dateStr.match(...)`. -/
def findDayMonth : Str → Option (Nat × Nat)
  | [] => none
  | c :: rest =>
    match dayMonthAt (c :: rest) with
    | some dm => some dm
    | none => findDayMonth rest

/-- `extractDatePart` of `readDueTodayData`: reject empty / `'0'` / blank
strings, then find a `dd/mm` pair anywhere in the text. -/
def extractDatePart (s : Str) : Option (Nat × Nat) :=
  if s = [] ∨ s = "0".toList ∨ jsTrim s = [] then none
  else findDayMonth s

/-- `isToday` of `readDueTodayData`. -/
def isTodayStr (t : Today) (s : Str) : Bool :=
  match extractDatePart s with
  | some (d, m) => d == t.day && m == t.month
  | none => false

/-- `isOverdue` of `readDueTodayData`: earlier month this year, or this
month with an earlier day. -/
def isOverdueStr (t : Today) (s : Str) : Bool :=
  match extractDatePart s with
  | some (d, m) => m < t.month || (m == t.month && d < t.day)
  | none => false

/-- `Ngày trả` (column C) of a row, trimmed when truthy. -/
def originalDueDateOf (row : Row) : Str :=
  if cellAt 2 row ≠ [] then jsTrim (cellAt 2 row) else []

/-- `Ngày trả mới` (column L) of a row, trimmed when present and truthy. -/
def rescheduledDueDateOf (row : Row) : Str :=
  if row.length > 11 ∧ cellAt 11 row ≠ [] then jsTrim (cellAt 11 row) else []

/-- `rescheduledDueDate || originalDueDate`. -/
def effectiveDueDateOf (row : Row) : Str :=
  if rescheduledDueDateOf row ≠ [] then rescheduledDueDateOf row else originalDueDateOf row

/-- The three-way outcome of the row filter of `readDueTodayData`. -/
inductive RowClass
  | dueToday
  | overdue
  | skipped
deriving DecidableEq, Repr

/-- The row filter of `readDueTodayData`: guard on shape and invoice code,
require a parseable day/month in the effective due date, drop closed rows,
then compare with today. -/
def classifyRow (t : Today) (row : Row) : RowClass :=
  if row.length < 3 ∨ cellAt 0 row = [] then .skipped
  else
    match extractDatePart (effectiveDueDateOf row) with
    | none => .skipped
    | some _ =>
      if row.length > 5 ∧ cellAt 5 row ≠ [] ∧ jsTrim (cellAt 5 row) = "Đóng đơn".toList then
        .skipped
      else if isTodayStr t (effectiveDueDateOf row) then .dueToday
      else if isOverdueStr t (effectiveDueDateOf row) then .overdue
      else .skipped

/-- The bucket tag of an entry of `uniqueCodesMap`. -/
inductive DueType
  | dueToday
  | overdue
deriving DecidableEq, Repr

/-- An entry of `uniqueCodesMap`.  Fields the source leaves `undefined` for
one of the two entry shapes are modelled with `Option` (`none` =
`undefined`); the presentation-only `isUsingRescheduledDate` flag is not
modelled. -/
structure MapEntry where
  dtype : DueType
  dueDate : Str
  originalDueDate : Option Str
  delayStatus : Option Str
deriving DecidableEq, Repr

/-- An element of `dueTodayItems` / `overdueItems`. -/
structure DueItem where
  code : Str
  dueDate : Str
  originalDueDate : Option Str
  delayStatus : Option Str
deriving DecidableEq, Repr

/-- `Lần Delay` (column K): kept only when present, truthy and different
from the default first dropdown value. -/
def delayStatusOf (cfg : SheetConfig) (row : Row) : Str :=
  if row.length > 10 ∧ cellAt 10 row ≠ [] ∧ cellAt 10 row ≠ cfg.delayValues.headD [] then
    cellAt 10 row
  else []

/-- The map entry recorded for a row classified due-today: the effective
(possibly rescheduled) date. -/
def mkDueTodayEntry (row : Row) : MapEntry :=
  ⟨.dueToday, effectiveDueDateOf row, some (originalDueDateOf row), none⟩

/-- The map entry recorded for a row classified overdue: the raw column-C
text `row[2]`, plus the delay status. -/
def mkOverdueEntry (cfg : SheetConfig) (row : Row) : MapEntry :=
  ⟨.overdue, cellAt 2 row, none, some (delayStatusOf cfg row)⟩

/-- `Map.get`-style lookup in the insertion-ordered association list that
models the JS `Map`. -/
def lookupCode (c : Str) : List (Str × MapEntry) → Option MapEntry
  | [] => none
  | (k, e) :: rest => if k = c then some e else lookupCode c rest

/-- `if (!uniqueCodesMap.has(code)) uniqueCodesMap.set(code, e)`: insert at
the end only when the code is absent. -/
def insertIfAbsent (m : List (Str × MapEntry)) (c : Str) (e : MapEntry) :
    List (Str × MapEntry) :=
  if (lookupCode c m).isSome then m else m ++ [(c, e)]

/-- The data rows of the sheet read (everything after the header). -/
def dataRowsOf (rows : List Row) : List Row := rows.drop 1

/-- The rows collected into `dueTodayRows`. -/
def dueTodayRowsOf (t : Today) (rows : List Row) : List Row :=
  (dataRowsOf rows).filter (fun r => decide (classifyRow t r = .dueToday))

/-- The rows collected into `overdueRows`. -/
def overdueRowsOf (t : Today) (rows : List Row) : List Row :=
  (dataRowsOf rows).filter (fun r => decide (classifyRow t r = .overdue))

/-- `uniqueCodesMap`: due-today rows are inserted first (higher priority),
then overdue rows, never overriding an existing code. -/
def uniqueCodesMapOf (cfg : SheetConfig) (t : Today) (rows : List Row) :
    List (Str × MapEntry) :=
  let m1 := (dueTodayRowsOf t rows).foldl
    (fun m r => insertIfAbsent m (cellAt 0 r) (mkDueTodayEntry r)) []
  (overdueRowsOf t rows).foldl
    (fun m r => insertIfAbsent m (cellAt 0 r) (mkOverdueEntry cfg r)) m1

/-- The pure core of `dailyReportJob.readDueTodayData`, from today's
day/month and the `A:L` sheet read to `(dueTodayItems, overdueItems)`. -/
def readDueTodayData (cfg : SheetConfig) (t : Today) (rows : List Row) :
    List DueItem × List DueItem :=
  if rows.length ≤ 1 then ([], [])
  else
    let m := uniqueCodesMapOf cfg t rows
    (m.filterMap (fun p =>
        if p.2.dtype = .dueToday then
          some ⟨p.1, p.2.dueDate, p.2.originalDueDate, p.2.delayStatus⟩
        else none),
     m.filterMap (fun p =>
        if p.2.dtype = .overdue then
          some ⟨p.1, p.2.dueDate, p.2.originalDueDate, p.2.delayStatus⟩
        else none))

/-! ## Ambiguous-date reconciliation (`dailyReportJob.readSheetData`) -/

/-- JS `parseInt(s, 10)`: skip leading whitespace, optional sign, then the
longest digit run; `none` models `NaN`. -/
def jsParseInt (s : Str) : Option Int :=
  let core : Str → Option Nat := fun l =>
    match l.takeWhile Char.isDigit with
    | [] => none
    | ds => some (ds.foldl (fun a c => 10 * a + digitVal c) 0)
  match trimLeft s with
  | '-' :: rest => (core rest).map (fun n => -(n : Int))
  | '+' :: rest => (core rest).map (fun n => (n : Int))
  | l => (core l).map (fun n => (n : Int))

/-- The `parseInt(parts[0]) > 12` guard (false on `NaN`). -/
def firstComponentGT12 (p : Str) : Bool :=
  match jsParseInt p with
  | some n => 12 < n
  | none => false

/-- Date normalization inside the filter pass of `readSheetData`: split a
slash-separated triple and swap the first two components when the first
cannot be a month. -/
def normalizeReceiveDateFilterPass (receiveDate : Str) : Str :=
  if receiveDate ≠ [] ∧ receiveDate.contains '/' then
    let parts := splitOn '/' receiveDate
    if parts.length = 3 then
      if firstComponentGT12 (parts.headD []) then
        parts.getD 1 [] ++ ['/'] ++ parts.headD [] ++ ['/'] ++ parts.getD 2 []
      else receiveDate
    else receiveDate
  else receiveDate

/-- The identical date normalization duplicated in the same-day row count
pass of `readSheetData`. -/
def normalizeReceiveDateCountPass (receiveDate : Str) : Str :=
  if receiveDate ≠ [] ∧ receiveDate.contains '/' then
    let parts := splitOn '/' receiveDate
    if parts.length = 3 then
      if firstComponentGT12 (parts.headD []) then
        parts.getD 1 [] ++ ['/'] ++ parts.headD [] ++ ['/'] ++ parts.getD 2 []
      else receiveDate
    else receiveDate
  else receiveDate

/-! ## Failure propagation (`addToGoogleSheet` / `setupDropdowns`) -/

/-- Errors thrown by external calls (the message text). -/
abbrev Err := Str

/-- Spreadsheet metadata as read by `spreadsheets.get`: whether the target
sheet tab exists, and its id. -/
structure SpreadsheetMeta where
  sheetFound : Bool
  sheetId : Nat
deriving DecidableEq, Repr

/-- Recorded outcomes of the external calls one sync run can issue, in
program order.  `Except.error e` models the call throwing `e`. -/
structure SheetEnv where
  accessCheck : Except Err Unit
  getMeta : Except Err SpreadsheetMeta
  createSheet : Except Err Nat
  writeHeaders : Except Err Unit
  readColA : Except Err (List Row)
  insertRows : Except Err Unit
  writeValues : Except Err Unit
  formatCells : Except Err Unit
  applyRules : Except Err Unit
  readAllValues : Except Err (List Row)
  writeDefaults : Except Err Unit
deriving Repr

/-- `setupDropdowns` without its `try`/`catch`: one `batchUpdate` applying
dropdown validation and color rules, the `A:L` re-scan read, then the
conditional default-value backfill writes (modelled as one fallible call,
issued when the re-scan returned more than the header row). -/
def setupDropdownsRaw (env : SheetEnv) : Except Err Unit := do
  let _ ← env.applyRules
  let rows ← env.readAllValues
  if rows.length > 1 then
    let _ ← env.writeDefaults
    pure ()
  else
    pure ()

/-- `setupDropdowns`: its `catch` only logs the error, so the method
returns normally whatever happened inside. -/
def setupDropdowns (env : SheetEnv) : Except Err Unit :=
  match setupDropdownsRaw env with
  | .ok _ => .ok ()
  | .error _ => .ok ()

/-- The wrapped error thrown when the spreadsheet access check fails. -/
def accessErr (e : Err) : Err := "Cannot access spreadsheet. Error: ".toList ++ e

/-- `addToGoogleSheet` over the recorded call outcomes: verify access, read
metadata, create the sheet and write headers when the tab is missing, read
column A, dedup, build the rows, then insert, write values, format, and run
`setupDropdowns`.  The outer `catch` logs and rethrows, so it is the
identity on this model.  On success the returned value is the list of rows
written (empty when the dedup filter left nothing). -/
def addToGoogleSheet (cfg : SheetConfig) (env : SheetEnv) (invoices : List Invoice) :
    Except Err (List Row) := do
  match env.accessCheck with
  | .error e => throw (accessErr e)
  | .ok _ => pure ()
  let meta ← env.getMeta
  if meta.sheetFound then
    pure ()
  else do
    let _ ← env.createSheet
    let _ ← env.writeHeaders
    pure ()
  let colA ← env.readColA
  let newInvoices := filterNewInvoices invoices (extractExistingCodes colA)
  if newInvoices.length = 0 then
    pure []
  else
    let rows := buildRows cfg newInvoices
    if rows.length > 0 then do
      let _ ← env.insertRows
      let _ ← env.writeValues
      let _ ← env.formatCells
      let _ ← setupDropdowns env
      pure rows
    else
      pure rows

/-- A concrete environment in which every call succeeds except the
dropdown/validation `batchUpdate` inside `setupDropdowns`. -/
def envDropFail : SheetEnv :=
  ⟨.ok (), .ok ⟨true, 1⟩, .ok 0, .ok (), .ok [], .ok (), .ok (), .ok (),
   .error "boom".toList, .ok [], .ok ()⟩

/-- The work item the claim describes for a numbered line: split the line on
`+`; the first segment with the leading `N.` stripped and trimmed is the
product name; the second segment, trimmed, is the work (empty when there is
no second segment); segments beyond the second are dropped. -/
def claimedItem (line : Str) : WorkItem :=
  let segments := splitOn '+' line
  ⟨jsTrim (stripNumbered (jsTrim (segments.headD []))),
   if segments.length > 1 then jsTrim (segments.getD 1 []) else []⟩

/-- A line whose trimmed text starts, case-insensitively, with the
return-date marker (the condition of `parseDescription`'s fourth branch). -/
def markerLine (l : Str) : Bool := beginsWith hennTraMarker ((jsTrim l).map jsToLower)

/-! ## Helper lemmas -/

/-- A line recognised by some branch of `parseDescription`'s line loop. -/
def recognizedLine (l : Str) : Bool :=
  testNumbered l || decide (jsTrim l = "ĐTT".toList) || decide (jsTrim l = "CTT".toList) ||
    beginsWith hennTraMarker ((jsTrim l).map jsToLower)

theorem processLine_items_length (r : ParsedDescription) (l : Str) :
    (processLine r l).items.length = r.items.length + (if testNumbered l then 1 else 0) := by
  unfold processLine
  by_cases h : testNumbered l
  · simp [h]
  · simp only [h, if_false, Bool.false_eq_true]
    split
    · rfl
    · split
      · rfl
      · split
        · rfl
        · rfl

theorem foldl_processLine_items_length (ls : List Str) (r : ParsedDescription) :
    (ls.foldl processLine r).items.length = r.items.length + (ls.filter testNumbered).length := by
  induction ls generalizing r with
  | nil => simp
  | cons l ls ih =>
    simp only [List.foldl_cons, List.filter_cons]
    rw [ih, processLine_items_length]
    by_cases h : testNumbered l
    · simp [h]
      omega
    · simp [h]

theorem processLine_unrecognized (r : ParsedDescription) (l : Str)
    (h : recognizedLine l = false) : processLine r l = r := by
  unfold recognizedLine at h
  simp only [Bool.or_eq_false_iff, decide_eq_false_iff_not] at h
  obtain ⟨⟨⟨h1, h2⟩, h3⟩, h4⟩ := h
  unfold processLine
  rw [if_neg (by simp [h1]), if_neg h2, if_neg h3, if_neg (by simp [h4])]

theorem foldl_processLine_unrecognized (ls : List Str) (r : ParsedDescription)
    (h : ∀ l ∈ ls, recognizedLine l = false) : ls.foldl processLine r = r := by
  induction ls generalizing r with
  | nil => rfl
  | cons l ls ih =>
    rw [List.foldl_cons, processLine_unrecognized r l (h l (by simp))]
    exact ih r (fun l' hl' => h l' (by simp [hl']))

/-! ## C3 -/

/-- C3: for every input string, `parseDescription` (a total function, so it
cannot throw) returns an items list whose length equals the number of
non-empty lines of the input matching the numbered-entry pattern (digits
followed by a period at the start of the trimmed line); and when no line
matches any recognised pattern the result has empty items, empty (unknown)
payment status and empty return date. -/
theorem C3_parse_items_count_and_default (s : Str) :
    (parseDescription s).items.length = ((descLines s).filter testNumbered).length ∧
    ((∀ l ∈ descLines s, recognizedLine l = false) → parseDescription s = emptyParse) := by
  constructor
  · unfold parseDescription
    split
    · rename_i hs
      subst hs
      decide
    · rw [foldl_processLine_items_length]
      simp [emptyParse]
  · intro h
    unfold parseDescription
    split
    · rfl
    · exact foldl_processLine_unrecognized _ _ h

/-- Witness for C3 at a concrete unrecognised two-line input. -/
theorem C3_witness :
    (parseDescription "xin chào\n:)".toList).items.length =
      ((descLines "xin chào\n:)".toList).filter testNumbered).length ∧
    parseDescription "xin chào\n:)".toList = emptyParse :=
  ⟨(C3_parse_items_count_and_default "xin chào\n:)".toList).1,
   (C3_parse_items_count_and_default "xin chào\n:)".toList).2 (by decide)⟩

/-! ## C4 -/

theorem splitOn_ne_nil (sep : Char) (s : Str) : splitOn sep s ≠ [] := by
  cases s with
  | nil => simp [splitOn]
  | cons c rest =>
    unfold splitOn
    split
    · simp
    · split <;> simp

theorem headD_map_jsTrim (l : List Str) : (l.map jsTrim).headD [] = jsTrim (l.headD []) := by
  cases l <;> rfl

theorem getD_one_map_jsTrim (l : List Str) :
    (l.map jsTrim).getD 1 [] = jsTrim (l.getD 1 []) := by
  match l with
  | [] => rfl
  | [_] => rfl
  | _ :: _ :: _ => rfl

/-- C4: every line matching the numbered-entry pattern contributes exactly
one work item built from the first two `+`-delimited segments (later
segments dropped), and the two-line example round-trips to the expected
item list in order. -/
theorem C4_numbered_line_item :
    (∀ (r : ParsedDescription) (line : Str), testNumbered line = true →
      processLine r line = { r with items := r.items ++ [claimedItem line] }) ∧
    parseDescription "1. Áo sơ mi + giặt ủi\n2. Quần tây + ủi".toList =
      ⟨[⟨"Áo sơ mi".toList, "giặt ủi".toList⟩, ⟨"Quần tây".toList, "ủi".toList⟩], [], []⟩ := by
  constructor
  · intro r line h
    unfold processLine
    rw [if_pos h]
    simp only [claimedItem, List.length_map, headD_map_jsTrim, getD_one_map_jsTrim]
  · decide

/-- Witness for C4's universal part at a concrete numbered line. -/
theorem C4_witness :
    processLine emptyParse "1. Áo + giặt + dư".toList =
      { emptyParse with items := emptyParse.items ++ [claimedItem "1. Áo + giặt + dư".toList] } :=
  C4_numbered_line_item.1 emptyParse "1. Áo + giặt + dư".toList (by decide)

/-! ## C8 -/

theorem charLe_toNat {a b : Char} : a ≤ b ↔ a.toNat ≤ b.toNat := by
  rw [Char.le_def, UInt32.le_def, BitVec.le_def]
  exact Iff.rfl

theorem isDigit_toNat {c : Char} (h : c.isDigit = true) : 48 ≤ c.toNat ∧ c.toNat ≤ 57 := by
  simp only [Char.isDigit, Bool.and_eq_true, decide_eq_true_eq, ge_iff_le, UInt32.le_def,
    BitVec.le_def] at h
  exact h

theorem jsToLower_of_isDigit {c : Char} (h : c.isDigit = true) : jsToLower c = c := by
  obtain ⟨h1, h2⟩ := isDigit_toNat h
  have hA : ¬('A' ≤ c ∧ c ≤ 'Z') := by
    rintro ⟨ha, _⟩
    rw [charLe_toNat] at ha
    have ha' : (65 : Nat) ≤ c.toNat := ha
    omega
  unfold jsToLower
  rw [if_neg hA, if_neg (by omega), if_neg (by omega), if_neg (by omega), if_neg (by omega)]

theorem jsToLower_of_isWS {c : Char} (h : isWS c = true) : jsToLower c = c := by
  simp only [isWS, Bool.or_eq_true, beq_iff_eq] at h
  rcases h with ((((h | h) | h) | h) | h) | h <;> subst h <;> decide

theorem beginsWith_le_length {pat s : Str} (h : beginsWith pat s = true) :
    pat.length ≤ s.length := by
  unfold beginsWith at h
  rw [beq_iff_eq] at h
  have hl := congrArg List.length h
  rw [List.length_take] at hl
  exact inf_eq_left.mp hl

/-- `beginsWithCI` is `beginsWith` after lowercasing. -/
theorem beginsWithCI_eq_map (pat s : Str) :
    beginsWithCI pat s = beginsWith pat (s.map jsToLower) := by
  unfold beginsWithCI beginsWith
  rw [← List.map_take]

theorem dropWhile_append_all {p : Char → Bool} {a y : Str} (h : ∀ c ∈ a, p c = true) :
    List.dropWhile p (a ++ y) = List.dropWhile p y := by
  induction a with
  | nil => rfl
  | cons c a ih =>
    rw [List.cons_append, List.dropWhile_cons_of_pos (h c (by simp))]
    exact ih (fun c' hc' => h c' (by simp [hc']))

theorem trimRight_append_ws {x b : Str} (h : ∀ c ∈ b, isWS c = true) :
    trimRight (x ++ b) = trimRight x := by
  unfold trimRight
  rw [List.reverse_append, dropWhile_append_all (fun c hc => h c (List.mem_reverse.mp hc))]

theorem beginsWithCI_false_of_ws {c : Char} (t : Str) (hc : isWS c = true) :
    beginsWithCI hennTraMarker (c :: t) = false := by
  rw [Bool.eq_false_iff]
  intro hEq
  unfold beginsWithCI at hEq
  rw [beq_iff_eq, List.take_cons (by decide), List.map_cons] at hEq
  rw [show hennTraMarker = 'h' :: "ẹn trả:".toList from by decide] at hEq
  injection hEq with h1 _
  rw [jsToLower_of_isWS hc] at h1
  subst h1
  exact absurd hc (by decide)

theorem removeFirstCI_ws_lead {a x : Str} (h : ∀ c ∈ a, isWS c = true) :
    removeFirstCI hennTraMarker (a ++ x) = a ++ removeFirstCI hennTraMarker x := by
  induction a with
  | nil => rfl
  | cons c a ih =>
    rw [List.cons_append]
    have hfalse := beginsWithCI_false_of_ws (a ++ x) (h c (by simp))
    simp only [removeFirstCI, hfalse, Bool.false_eq_true, if_false, List.cons_append,
      List.cons.injEq, true_and]
    exact ih (fun c' hc' => h c' (by simp [hc']))

theorem removeFirstCI_of_begins {s : Str} (h : beginsWithCI hennTraMarker s = true) :
    removeFirstCI hennTraMarker s = s.drop hennTraMarker.length := by
  cases s with
  | nil => exact absurd h (by decide)
  | cons c rest => simp only [removeFirstCI, h, if_true]

theorem trimLeft_append_all {a y : Str} (h : ∀ c ∈ a, isWS c = true) :
    trimLeft (a ++ y) = trimLeft y := dropWhile_append_all h

theorem jsTrim_ws_wrap {a b x : Str} (ha : ∀ c ∈ a, isWS c = true)
    (hb : ∀ c ∈ b, isWS c = true) : jsTrim (a ++ (x ++ b)) = jsTrim x := by
  unfold jsTrim
  rw [trimLeft_append_all ha]
  unfold trimLeft
  rw [List.dropWhile_append]
  split
  · rename_i hemp
    rw [List.isEmpty_iff] at hemp
    rw [List.dropWhile_eq_nil_iff.mpr hb, hemp]
  · exact trimRight_append_ws hb

theorem removeFirstCI_jsTrim (line : Str)
    (h : beginsWith hennTraMarker ((jsTrim line).map jsToLower) = true) :
    jsTrim (removeFirstCI hennTraMarker line) =
      jsTrim ((jsTrim line).drop hennTraMarker.length) := by
  have hlen : hennTraMarker.length ≤ (jsTrim line).length := by
    have h' := beginsWith_le_length h
    rwa [List.length_map] at h'
  have haws : ∀ c ∈ line.takeWhile isWS, isWS c = true := fun _ hc => List.mem_takeWhile_imp hc
  have hbws : ∀ c ∈ ((line.dropWhile isWS).reverse.takeWhile isWS).reverse, isWS c = true :=
    fun _ hc => List.mem_takeWhile_imp (List.mem_reverse.mp hc)
  have hm : line.dropWhile isWS =
      jsTrim line ++ ((line.dropWhile isWS).reverse.takeWhile isWS).reverse := by
    have h1 := congrArg List.reverse
      (List.takeWhile_append_dropWhile isWS (line.dropWhile isWS).reverse)
    rw [List.reverse_append, List.reverse_reverse] at h1
    exact h1.symm
  have hline : line = line.takeWhile isWS ++
      (jsTrim line ++ ((line.dropWhile isWS).reverse.takeWhile isWS).reverse) := by
    conv_lhs => rw [← List.takeWhile_append_dropWhile isWS line]
    rw [← hm]
  have hCImid : beginsWithCI hennTraMarker
      (jsTrim line ++ ((line.dropWhile isWS).reverse.takeWhile isWS).reverse) = true := by
    unfold beginsWithCI
    rw [List.take_append_of_le_length hlen, List.map_take]
    unfold beginsWith at h
    exact h
  conv_lhs => rw [hline]
  rw [removeFirstCI_ws_lead haws, removeFirstCI_of_begins hCImid,
    List.drop_append_of_le_length hlen]
  exact jsTrim_ws_wrap haws hbws

theorem processLine_marker (r : ParsedDescription) (line : Str)
    (h : markerLine line = true) :
    processLine r line =
      { r with returnDate := jsTrim ((jsTrim line).drop hennTraMarker.length) } := by
  unfold markerLine at h
  have hlen : hennTraMarker.length ≤ (jsTrim line).length := by
    have h' := beginsWith_le_length h
    rwa [List.length_map] at h'
  have hnum : testNumbered line = false := by
    unfold testNumbered
    cases hJ : jsTrim line with
    | nil => rfl
    | cons c rest =>
      have hc : jsToLower c = 'h' := by
        unfold beginsWith at h
        rw [beq_iff_eq, hJ, List.map_cons, List.take_cons (by decide)] at h
        rw [show hennTraMarker = 'h' :: "ẹn trả:".toList from by decide] at h
        injection h with h1 _
      show (c.isDigit && digitsThenDot rest) = false
      by_cases hd : c.isDigit = true
      · exfalso
        rw [jsToLower_of_isDigit hd] at hc
        subst hc
        exact absurd hd (by decide)
      · simp [Bool.eq_false_iff.mpr hd]
  have hdtt : jsTrim line ≠ "ĐTT".toList := by
    intro hEq
    rw [hEq] at hlen
    exact absurd hlen (by decide)
  have hctt : jsTrim line ≠ "CTT".toList := by
    intro hEq
    rw [hEq] at hlen
    exact absurd hlen (by decide)
  unfold processLine
  rw [if_neg (by simp [hnum]), if_neg hdtt, if_neg hctt, if_pos h, removeFirstCI_jsTrim line h]

theorem processLine_not_marker (r : ParsedDescription) (line : Str)
    (h : markerLine line = false) : (processLine r line).returnDate = r.returnDate := by
  unfold markerLine at h
  unfold processLine
  split
  · rfl
  · split
    · rfl
    · split
      · rfl
      · rw [if_neg (by simp [h])]

theorem foldl_processLine_no_marker (ls : List Str) (r : ParsedDescription)
    (h : ∀ l ∈ ls, markerLine l = false) :
    (ls.foldl processLine r).returnDate = r.returnDate := by
  induction ls generalizing r with
  | nil => rfl
  | cons l ls ih =>
    rw [List.foldl_cons, ih _ (fun l' hl' => h l' (by simp [hl']))]
    exact processLine_not_marker r l (h l (by simp))

theorem beginsWith_exact_false_of_ws {c : Char} (t : Str) (hc : isWS c = true) :
    beginsWith hennTraExact (c :: t) = false := by
  rw [Bool.eq_false_iff]
  intro hEq
  unfold beginsWith at hEq
  rw [beq_iff_eq, List.take_cons (by decide)] at hEq
  rw [show hennTraExact = 'H' :: "ẹn trả:".toList from by decide] at hEq
  injection hEq with h1 _
  subst h1
  exact absurd hc (by decide)

theorem removeFirstStr_ws_lead {a x : Str} (h : ∀ c ∈ a, isWS c = true) :
    removeFirstStr hennTraExact (a ++ x) = a ++ removeFirstStr hennTraExact x := by
  induction a with
  | nil => rfl
  | cons c a ih =>
    rw [List.cons_append]
    have hfalse := beginsWith_exact_false_of_ws (a ++ x) (h c (by simp))
    simp only [removeFirstStr, hfalse, Bool.false_eq_true, if_false, List.cons_append,
      List.cons.injEq, true_and]
    exact ih (fun c' hc' => h c' (by simp [hc']))

theorem removeFirstStr_of_begins {s : Str} (h : beginsWith hennTraExact s = true) :
    removeFirstStr hennTraExact s = s.drop hennTraExact.length := by
  cases s with
  | nil => exact absurd h (by decide)
  | cons c rest => simp only [removeFirstStr, h, if_true]

theorem removeFirstStr_jsTrim (line : Str)
    (h : beginsWith hennTraExact (jsTrim line) = true) :
    jsTrim (removeFirstStr hennTraExact line) =
      jsTrim ((jsTrim line).drop hennTraExact.length) := by
  have hlen : hennTraExact.length ≤ (jsTrim line).length := beginsWith_le_length h
  have haws : ∀ c ∈ line.takeWhile isWS, isWS c = true := fun _ hc => List.mem_takeWhile_imp hc
  have hbws : ∀ c ∈ ((line.dropWhile isWS).reverse.takeWhile isWS).reverse, isWS c = true :=
    fun _ hc => List.mem_takeWhile_imp (List.mem_reverse.mp hc)
  have hm : line.dropWhile isWS =
      jsTrim line ++ ((line.dropWhile isWS).reverse.takeWhile isWS).reverse := by
    have h1 := congrArg List.reverse
      (List.takeWhile_append_dropWhile isWS (line.dropWhile isWS).reverse)
    rw [List.reverse_append, List.reverse_reverse] at h1
    exact h1.symm
  have hline : line = line.takeWhile isWS ++
      (jsTrim line ++ ((line.dropWhile isWS).reverse.takeWhile isWS).reverse) := by
    conv_lhs => rw [← List.takeWhile_append_dropWhile isWS line]
    rw [← hm]
  have hmid : beginsWith hennTraExact
      (jsTrim line ++ ((line.dropWhile isWS).reverse.takeWhile isWS).reverse) = true := by
    unfold beginsWith
    rw [List.take_append_of_le_length hlen]
    unfold beginsWith at h
    exact h
  conv_lhs => rw [hline]
  rw [removeFirstStr_ws_lead haws, removeFirstStr_of_begins hmid,
    List.drop_append_of_le_length hlen]
  exact jsTrim_ws_wrap haws hbws

theorem processLineIndex_marker (r : ParsedDescription) (line : Str)
    (h : beginsWith hennTraExact (jsTrim line) = true) :
    processLineIndex r line =
      { r with returnDate := jsTrim ((jsTrim line).drop hennTraExact.length) } := by
  have hlen : hennTraExact.length ≤ (jsTrim line).length := beginsWith_le_length h
  have hnum : testNumbered line = false := by
    unfold testNumbered
    cases hJ : jsTrim line with
    | nil => rfl
    | cons c rest =>
      have hc : c = 'H' := by
        have h' := h
        unfold beginsWith at h'
        rw [beq_iff_eq, hJ, List.take_cons (by decide)] at h'
        rw [show hennTraExact = 'H' :: "ẹn trả:".toList from by decide] at h'
        injection h' with h1 _
      subst hc
      show (Char.isDigit 'H' && digitsThenDot rest) = false
      simp
  have hdtt : jsTrim line ≠ "ĐTT".toList := by
    intro hEq
    rw [hEq] at hlen
    exact absurd hlen (by decide)
  have hctt : jsTrim line ≠ "CTT".toList := by
    intro hEq
    rw [hEq] at hlen
    exact absurd hlen (by decide)
  unfold processLineIndex
  rw [if_neg (by simp [hnum]), if_neg hdtt, if_neg hctt, if_pos h,
    removeFirstStr_jsTrim line h]

/-- C8 (amended): in `workMigrationJob.parseDescription` a line whose
trimmed text starts with the return-date marker case-insensitively sets
`returnDate` to the remainder after the marker, trimmed; the last marker
line wins; the all-caps example yields `15/3`.  In the legacy
`src/index.js` copy, the same behaviour requires the exact-case prefix
`Hẹn trả:`. -/
theorem C8_return_date_marker :
    (∀ (r : ParsedDescription) (line : Str), markerLine line = true →
      processLine r line =
        { r with returnDate := jsTrim ((jsTrim line).drop hennTraMarker.length) }) ∧
    (∀ (r : ParsedDescription) (pre post : List Str) (l : Str), markerLine l = true →
      (∀ l' ∈ post, markerLine l' = false) →
      ((pre ++ l :: post).foldl processLine r).returnDate =
        jsTrim ((jsTrim l).drop hennTraMarker.length)) ∧
    (parseDescription "HẸN TRẢ: 15/3".toList).returnDate = "15/3".toList ∧
    (∀ (r : ParsedDescription) (line : Str), beginsWith hennTraExact (jsTrim line) = true →
      processLineIndex r line =
        { r with returnDate := jsTrim ((jsTrim line).drop hennTraExact.length) }) := by
  refine ⟨processLine_marker, ?_, by decide, processLineIndex_marker⟩
  intro r pre post l hl hpost
  rw [List.foldl_append, List.foldl_cons, processLine_marker _ l hl,
    foldl_processLine_no_marker post _ hpost]

/-- C8 counterexample: the claim as stated also covers the legacy
`parseDescription` of `src/index.js` (cited as a source), but there the
marker comparison is case-sensitive: `HẸN TRẢ: 15/3` is a line whose
trimmed text starts with the marker case-insensitively, yet the legacy
parser leaves `returnDate` empty instead of `15/3`. -/
theorem C8_counterexample :
    markerLine "HẸN TRẢ: 15/3".toList = true ∧
    (parseDescriptionIndex "HẸN TRẢ: 15/3".toList).returnDate = [] ∧
    (parseDescriptionIndex "HẸN TRẢ: 15/3".toList).returnDate ≠ "15/3".toList := by
  refine ⟨by decide, by decide, by decide⟩

/-- Witness for C8 at concrete inputs: a mixed-case marker line, a
three-line description where the last marker line wins, and an exact-case
line for the legacy parser. -/
theorem C8_witness :
    processLine emptyParse "  hẸn TrẢ: 20/4 ".toList =
      { emptyParse with returnDate :=
          (jsTrim ((jsTrim "  hẸn TrẢ: 20/4 ".toList).drop hennTraMarker.length)) } ∧
    ((["1. Áo + ủi".toList, "Hẹn trả: 1/1".toList] ++
        "hẹn trả: 2/2".toList :: ["ĐTT".toList]).foldl processLine emptyParse).returnDate =
      jsTrim ((jsTrim "hẹn trả: 2/2".toList).drop hennTraMarker.length) ∧
    processLineIndex emptyParse "Hẹn trả: 15/3".toList =
      { emptyParse with returnDate :=
          (jsTrim ((jsTrim "Hẹn trả: 15/3".toList).drop hennTraExact.length)) } :=
  ⟨C8_return_date_marker.1 emptyParse "  hẸn TrẢ: 20/4 ".toList (by decide),
   C8_return_date_marker.2.1 emptyParse ["1. Áo + ủi".toList, "Hẹn trả: 1/1".toList]
     ["ĐTT".toList] "hẹn trả: 2/2".toList (by decide) (by decide),
   C8_return_date_marker.2.2.2 emptyParse "Hẹn trả: 15/3".toList (by decide)⟩

/-! ## C1 -/

theorem mem_filterNewInvoices {invoices : List Invoice} {codes : List Str} {inv : Invoice} :
    inv ∈ filterNewInvoices invoices codes ↔ inv ∈ invoices ∧ inv.code ∉ codes := by
  unfold filterNewInvoices
  rw [List.mem_filter]
  simp

theorem rowsForInvoice_code {cfg : SheetConfig} {inv : Invoice} {r : Row}
    (h : r ∈ rowsForInvoice cfg inv) : cellAt 0 r = inv.code := by
  by_cases hi : inv.items = []
  · simp only [rowsForInvoice, hi] at h
    rw [if_neg (by simp), List.mem_singleton] at h
    subst h
    rfl
  · simp only [rowsForInvoice] at h
    rw [if_pos hi] at h
    obtain ⟨item, _, hr⟩ := List.mem_map.mp h
    subst hr
    rfl

/-- C1: the sync dedup.  Every row written by a run belongs to an input
invoice whose code is not in the existing-keys set read from column A;
every input invoice whose code is already present is skipped; the invoices
kept are exactly the input invoices with unseen codes; and on the example
(existing keys containing `HD001`, batch `HD001`/`HD002`) only `HD002`
survives, with inserted = 1 and skipped = 1. -/
theorem C1_sync_dedup :
    (∀ (cfg : SheetConfig) (invoices : List Invoice) (colA : List Row) (r : Row),
      r ∈ buildRows cfg (filterNewInvoices invoices (extractExistingCodes colA)) →
      ∃ inv ∈ invoices, cellAt 0 r = inv.code ∧ inv.code ∉ extractExistingCodes colA) ∧
    (∀ (invoices : List Invoice) (codes : List Str) (inv : Invoice),
      inv ∈ invoices → inv.code ∈ codes → inv ∉ filterNewInvoices invoices codes) ∧
    (∀ (invoices : List Invoice) (codes : List Str) (inv : Invoice),
      inv ∈ filterNewInvoices invoices codes → inv ∈ invoices ∧ inv.code ∉ codes) ∧
    (filterNewInvoices
        [⟨"HD001".toList, ⟨2025, 3, 2, 10, 0⟩, [⟨"Áo".toList, "ủi".toList⟩], [], []⟩,
         ⟨"HD002".toList, ⟨2025, 3, 2, 11, 0⟩, [], [], []⟩]
        (extractExistingCodes [["Hoá đơn".toList], ["HD001".toList]]) =
      [⟨"HD002".toList, ⟨2025, 3, 2, 11, 0⟩, [], [], []⟩] ∧
     insertedCount
        [⟨"HD001".toList, ⟨2025, 3, 2, 10, 0⟩, [⟨"Áo".toList, "ủi".toList⟩], [], []⟩,
         ⟨"HD002".toList, ⟨2025, 3, 2, 11, 0⟩, [], [], []⟩]
        (extractExistingCodes [["Hoá đơn".toList], ["HD001".toList]]) = 1 ∧
     skippedCount
        [⟨"HD001".toList, ⟨2025, 3, 2, 10, 0⟩, [⟨"Áo".toList, "ủi".toList⟩], [], []⟩,
         ⟨"HD002".toList, ⟨2025, 3, 2, 11, 0⟩, [], [], []⟩]
        (extractExistingCodes [["Hoá đơn".toList], ["HD001".toList]]) = 1) := by
  refine ⟨?_, ?_, ?_, by decide, by decide, by decide⟩
  · intro cfg invoices colA r h
    unfold buildRows at h
    obtain ⟨inv, hinv, hr⟩ := List.mem_flatMap.mp h
    obtain ⟨h1, h2⟩ := mem_filterNewInvoices.mp hinv
    exact ⟨inv, h1, rowsForInvoice_code hr, h2⟩
  · intro invoices codes inv hmem hcode hfil
    exact absurd hcode (mem_filterNewInvoices.mp hfil).2
  · intro invoices codes inv hfil
    exact mem_filterNewInvoices.mp hfil

/-- Witness for C1 at a concrete run: the single row written for `HD002`
traces back to an input invoice with an unseen code, and `HD001` is not in
the filtered batch. -/
theorem C1_witness :
    (∃ inv ∈ [(⟨"HD001".toList, ⟨2025, 3, 2, 10, 0⟩, [], [], []⟩ : Invoice),
              ⟨"HD002".toList, ⟨2025, 3, 2, 11, 0⟩, [], [], []⟩],
      cellAt 0 ["HD002".toList, "03/02/2025 11:00".toList, [], [], [], "Chưa làm".toList, [],
        "Chọn người làm".toList, [], [], "Chọn".toList, []] = inv.code ∧
      inv.code ∉ extractExistingCodes [["Hoá đơn".toList], ["HD001".toList]]) ∧
    (⟨"HD001".toList, ⟨2025, 3, 2, 10, 0⟩, [], [], []⟩ : Invoice) ∉
      filterNewInvoices
        [⟨"HD001".toList, ⟨2025, 3, 2, 10, 0⟩, [], [], []⟩,
         ⟨"HD002".toList, ⟨2025, 3, 2, 11, 0⟩, [], [], []⟩]
        (extractExistingCodes [["Hoá đơn".toList], ["HD001".toList]]) :=
  ⟨C1_sync_dedup.1 theConfig
    [⟨"HD001".toList, ⟨2025, 3, 2, 10, 0⟩, [], [], []⟩,
     ⟨"HD002".toList, ⟨2025, 3, 2, 11, 0⟩, [], [], []⟩]
    [["Hoá đơn".toList], ["HD001".toList]]
    ["HD002".toList, "03/02/2025 11:00".toList, [], [], [], "Chưa làm".toList, [],
      "Chọn người làm".toList, [], [], "Chọn".toList, []] (by decide),
   C1_sync_dedup.2.1
    [⟨"HD001".toList, ⟨2025, 3, 2, 10, 0⟩, [], [], []⟩,
     ⟨"HD002".toList, ⟨2025, 3, 2, 11, 0⟩, [], [], []⟩]
    (extractExistingCodes [["Hoá đơn".toList], ["HD001".toList]])
    ⟨"HD001".toList, ⟨2025, 3, 2, 10, 0⟩, [], [], []⟩ (by decide) (by decide)⟩

/-! ## C6 -/

/-- C6: row expansion.  An invoice with items produces exactly one row per
work item, all sharing the invoice code, the formatted receive date and the
return-date text, with items appearing in order in columns D/E; an invoice
with no items produces exactly one placeholder row with empty product and
work cells. -/
theorem C6_row_expansion :
    (∀ (cfg : SheetConfig) (inv : Invoice), inv.items ≠ [] →
      (rowsForInvoice cfg inv).length = inv.items.length ∧
      (∀ r ∈ rowsForInvoice cfg inv,
        cellAt 0 r = inv.code ∧ cellAt 1 r = formatDateTime inv.purchaseDate ∧
        cellAt 2 r = (if inv.returnDate ≠ [] then '\'' :: inv.returnDate else [])) ∧
      (rowsForInvoice cfg inv).map (fun r => (cellAt 3 r, cellAt 4 r)) =
        inv.items.map (fun it => (it.productName, it.work))) ∧
    (∀ (cfg : SheetConfig) (inv : Invoice), inv.items = [] →
      (rowsForInvoice cfg inv).length = 1 ∧
      ∀ r ∈ rowsForInvoice cfg inv,
        cellAt 0 r = inv.code ∧ cellAt 3 r = [] ∧ cellAt 4 r = []) := by
  constructor
  · intro cfg inv h
    refine ⟨?_, ?_, ?_⟩
    · simp only [rowsForInvoice]
      rw [if_pos h, List.length_map]
    · intro r hr
      simp only [rowsForInvoice] at hr
      rw [if_pos h] at hr
      obtain ⟨item, _, hrr⟩ := List.mem_map.mp hr
      subst hrr
      exact ⟨rfl, rfl, rfl⟩
    · simp only [rowsForInvoice]
      rw [if_pos h, List.map_map]
      rfl
  · intro cfg inv h
    constructor
    · simp only [rowsForInvoice, h]
      rw [if_neg (by simp)]
      rfl
    · intro r hr
      simp only [rowsForInvoice, h] at hr
      rw [if_neg (by simp), List.mem_singleton] at hr
      subst hr
      exact ⟨rfl, rfl, rfl⟩

/-- Witness for C6 at a concrete two-item invoice and a concrete empty
invoice. -/
theorem C6_witness :
    ((rowsForInvoice theConfig
        ⟨"HD1".toList, ⟨2025, 3, 2, 9, 30⟩,
         [⟨"Áo".toList, "ủi".toList⟩, ⟨"Quần".toList, "giặt".toList⟩], [], "5/3".toList⟩).length =
      ([⟨"Áo".toList, "ủi".toList⟩, ⟨"Quần".toList, "giặt".toList⟩] : List WorkItem).length) ∧
    (rowsForInvoice theConfig
        ⟨"HD2".toList, ⟨2025, 3, 2, 9, 30⟩, [], [], []⟩).length = 1 :=
  ⟨(C6_row_expansion.1 theConfig
      ⟨"HD1".toList, ⟨2025, 3, 2, 9, 30⟩,
       [⟨"Áo".toList, "ủi".toList⟩, ⟨"Quần".toList, "giặt".toList⟩], [], "5/3".toList⟩
      (by decide)).1,
   (C6_row_expansion.2 theConfig
      ⟨"HD2".toList, ⟨2025, 3, 2, 9, 30⟩, [], [], []⟩ rfl).1⟩

/-! ## C2 -/

/-- C2: the due/overdue classifier of `readDueTodayData`.  The effective
due date is the trimmed rescheduled date (column L) when non-empty, else
the trimmed original date (column C); rows whose effective date has no
parseable day/month pair are skipped, as are rows whose trimmed status
(column F) is `Đóng đơn`; the regex finds the pair even inside prose; and
with today = day 10, month 3, the texts `quá 7/3`, `10/3` and `15/3`
classify as overdue, due-today and ignored respectively. -/
theorem C2_classifier :
    (∀ row : Row, rescheduledDueDateOf row ≠ [] →
      effectiveDueDateOf row = jsTrim (cellAt 11 row)) ∧
    (∀ row : Row, rescheduledDueDateOf row = [] →
      effectiveDueDateOf row = originalDueDateOf row) ∧
    (∀ (t : Today) (row : Row), extractDatePart (effectiveDueDateOf row) = none →
      classifyRow t row = .skipped) ∧
    (∀ (t : Today) (row : Row), jsTrim (cellAt 5 row) = "Đóng đơn".toList →
      classifyRow t row = .skipped) ∧
    (extractDatePart "quá 7/3".toList = some (7, 3) ∧
     classifyRow ⟨10, 3⟩ ["HD1".toList, [], "quá 7/3".toList] = .overdue ∧
     classifyRow ⟨10, 3⟩ ["HD2".toList, [], "10/3".toList] = .dueToday ∧
     classifyRow ⟨10, 3⟩ ["HD3".toList, [], "15/3".toList] = .skipped ∧
     classifyRow ⟨10, 3⟩
       ["HD4".toList, [], "7/3".toList, [], [], "Đóng đơn".toList] = .skipped) := by
  refine ⟨?_, ?_, ?_, ?_, by decide⟩
  · intro row h
    unfold effectiveDueDateOf
    rw [if_pos h]
    unfold rescheduledDueDateOf at h ⊢
    by_cases hc : row.length > 11 ∧ cellAt 11 row ≠ []
    · rw [if_pos hc]
    · rw [if_neg hc] at h
      exact absurd rfl h
  · intro row h
    unfold effectiveDueDateOf
    rw [if_neg (by simp [h])]
  · intro t row h
    unfold classifyRow
    split
    · rfl
    · rw [h]
  · intro t row h
    have hne : cellAt 5 row ≠ [] := by
      intro hc
      rw [hc] at h
      exact absurd h (by decide)
    have hlen : row.length > 5 := by
      by_contra hl
      push_neg at hl
      exact hne (List.getD_eq_default _ _ hl)
    unfold classifyRow
    split
    · rfl
    · cases hE : extractDatePart (effectiveDueDateOf row) with
      | none => rfl
      | some dm => rw [if_pos ⟨hlen, hne, h⟩]

/-- Witness for C2 at concrete rows: a rescheduled row, an unparseable row
and a closed-status row. -/
theorem C2_witness :
    effectiveDueDateOf
        ["HD9".toList, [], "1/1".toList, [], [], [], [], [], [], [], [], " 5/3 ".toList] =
      jsTrim (cellAt 11
        ["HD9".toList, [], "1/1".toList, [], [], [], [], [], [], [], [], " 5/3 ".toList]) ∧
    classifyRow ⟨10, 3⟩ ["HD8".toList, [], "chưa rõ".toList] = .skipped ∧
    classifyRow ⟨10, 3⟩
      ["HD7".toList, [], "7/3".toList, [], [], " Đóng đơn ".toList] = .skipped :=
  ⟨C2_classifier.1
    ["HD9".toList, [], "1/1".toList, [], [], [], [], [], [], [], [], " 5/3 ".toList] (by decide),
   C2_classifier.2.2.1 ⟨10, 3⟩ ["HD8".toList, [], "chưa rõ".toList] (by decide),
   C2_classifier.2.2.2.1 ⟨10, 3⟩
    ["HD7".toList, [], "7/3".toList, [], [], " Đóng đơn ".toList] (by decide)⟩

/-! ## C5 -/

theorem lookupCode_nil (c : Str) : lookupCode c [] = none := rfl

theorem lookupCode_cons (c k : Str) (e : MapEntry) (rest : List (Str × MapEntry)) :
    lookupCode c ((k, e) :: rest) = if k = c then some e else lookupCode c rest := rfl

theorem lookupCode_append_left {c : Str} {m l : List (Str × MapEntry)} {e : MapEntry}
    (h : lookupCode c m = some e) : lookupCode c (m ++ l) = some e := by
  induction m with
  | nil => exact absurd (lookupCode_nil c ▸ h) (by simp)
  | cons p m ih =>
    obtain ⟨k, e'⟩ := p
    rw [lookupCode_cons] at h
    rw [List.cons_append, lookupCode_cons]
    by_cases hk : k = c
    · rw [if_pos hk] at h
      rw [if_pos hk]
      exact h
    · rw [if_neg hk] at h
      rw [if_neg hk]
      exact ih h

theorem lookupCode_append_right {c : Str} {m l : List (Str × MapEntry)}
    (h : lookupCode c m = none) : lookupCode c (m ++ l) = lookupCode c l := by
  induction m with
  | nil => rfl
  | cons p m ih =>
    obtain ⟨k, e'⟩ := p
    rw [lookupCode_cons] at h
    rw [List.cons_append, lookupCode_cons]
    by_cases hk : k = c
    · rw [if_pos hk] at h
      exact absurd h (by simp)
    · rw [if_neg hk] at h
      rw [if_neg hk]
      exact ih h

theorem lookupCode_eq_none_iff {c : Str} {m : List (Str × MapEntry)} :
    lookupCode c m = none ↔ c ∉ m.map Prod.fst := by
  induction m with
  | nil =>
    rw [lookupCode_nil]
    exact ⟨fun _ h => absurd h (List.not_mem_nil c), fun _ => rfl⟩
  | cons p m ih =>
    obtain ⟨k, e⟩ := p
    rw [lookupCode_cons, List.map_cons]
    by_cases hk : k = c
    · subst hk
      rw [if_pos rfl]
      constructor
      · intro hsome
        exact absurd hsome (by simp)
      · intro hmem
        exact absurd (List.mem_cons_self k (m.map Prod.fst)) hmem
    · rw [if_neg hk]
      constructor
      · intro hnone hmem
        rcases List.mem_cons.mp hmem with hc | hc
        · exact hk hc.symm
        · exact (ih.mp hnone) hc
      · intro hnm
        exact ih.mpr (fun hc => hnm (List.mem_cons_of_mem _ hc))

theorem lookupCode_mem {c : Str} {m : List (Str × MapEntry)} {e : MapEntry}
    (h : lookupCode c m = some e) : (c, e) ∈ m := by
  induction m with
  | nil => exact absurd (lookupCode_nil c ▸ h) (by simp)
  | cons p m ih =>
    obtain ⟨k, e'⟩ := p
    rw [lookupCode_cons] at h
    by_cases hk : k = c
    · rw [if_pos hk] at h
      rw [Option.some_inj] at h
      subst hk
      subst h
      exact List.mem_cons_self _ _
    · rw [if_neg hk] at h
      exact List.mem_cons_of_mem _ (ih h)

theorem mem_lookupCode {p : Str × MapEntry} {m : List (Str × MapEntry)}
    (h : p ∈ m) (hnd : (m.map Prod.fst).Nodup) : lookupCode p.1 m = some p.2 := by
  induction m with
  | nil => exact absurd h (by simp)
  | cons q m ih =>
    obtain ⟨k, e⟩ := q
    rw [List.map_cons, List.nodup_cons] at hnd
    rw [lookupCode_cons]
    rcases List.mem_cons.mp h with h | h
    · rw [h]
      rw [if_pos rfl]
    · by_cases hk : k = p.1
      · exfalso
        apply hnd.1
        rw [hk]
        exact @List.mem_map_of_mem _ _ m p Prod.fst h
      · rw [if_neg hk]
        exact ih h hnd.2

theorem lookupCode_insertIfAbsent_some {c : Str} {m : List (Str × MapEntry)} {k : Str}
    {e' e : MapEntry} (h : lookupCode c m = some e) :
    lookupCode c (insertIfAbsent m k e') = some e := by
  unfold insertIfAbsent
  split
  · exact h
  · exact lookupCode_append_left h

theorem lookupCode_insertIfAbsent_self {m : List (Str × MapEntry)} {k : Str} {e : MapEntry} :
    (lookupCode k (insertIfAbsent m k e)).isSome := by
  unfold insertIfAbsent
  split
  · rename_i hs
    exact hs
  · rename_i hs
    rw [Option.not_isSome_iff_eq_none] at hs
    rw [lookupCode_append_right hs]
    simp [lookupCode]

theorem mem_insertIfAbsent {p : Str × MapEntry} {m : List (Str × MapEntry)} {k : Str}
    {e : MapEntry} (h : p ∈ insertIfAbsent m k e) : p ∈ m ∨ p = (k, e) := by
  unfold insertIfAbsent at h
  split at h
  · exact Or.inl h
  · rcases List.mem_append.mp h with h | h
    · exact Or.inl h
    · exact Or.inr (List.mem_singleton.mp h)

theorem nodup_keys_insertIfAbsent {m : List (Str × MapEntry)} {k : Str} {e : MapEntry}
    (h : (m.map Prod.fst).Nodup) : ((insertIfAbsent m k e).map Prod.fst).Nodup := by
  unfold insertIfAbsent
  split
  · exact h
  · rename_i hs
    rw [Option.not_isSome_iff_eq_none, lookupCode_eq_none_iff] at hs
    rw [List.map_append]
    simp only [List.map_cons, List.map_nil]
    rw [List.nodup_append]
    refine ⟨h, List.nodup_singleton _, ?_⟩
    intro a ha hb
    rw [List.mem_singleton] at hb
    subst hb
    exact hs ha

theorem foldl_insert_preserves (key : Row → Str) (ent : Row → MapEntry) (rows : List Row)
    (m : List (Str × MapEntry)) {c : Str} {e : MapEntry} (h : lookupCode c m = some e) :
    lookupCode c (rows.foldl (fun m r => insertIfAbsent m (key r) (ent r)) m) = some e := by
  induction rows generalizing m with
  | nil => exact h
  | cons r rows ih => exact ih _ (lookupCode_insertIfAbsent_some h)

theorem foldl_insert_isSome (key : Row → Str) (ent : Row → MapEntry) (rows : List Row)
    (m : List (Str × MapEntry)) {r₀ : Row} (h : r₀ ∈ rows) :
    (lookupCode (key r₀) (rows.foldl (fun m r => insertIfAbsent m (key r) (ent r)) m)).isSome := by
  induction rows generalizing m with
  | nil => exact absurd h (List.not_mem_nil r₀)
  | cons r rows ih =>
    rcases List.mem_cons.mp h with hh | hh
    · subst hh
      rw [List.foldl_cons]
      obtain ⟨e, he⟩ := Option.isSome_iff_exists.mp
        (@lookupCode_insertIfAbsent_self m (key r₀) (ent r₀))
      rw [foldl_insert_preserves key ent rows _ he]
      rfl
    · exact ih _ hh

theorem foldl_insert_entries_prop {P : MapEntry → Prop} (key : Row → Str)
    (ent : Row → MapEntry) (rows : List Row) (m : List (Str × MapEntry))
    (hm : ∀ p ∈ m, P p.2) (hent : ∀ r ∈ rows, P (ent r)) :
    ∀ p ∈ rows.foldl (fun m r => insertIfAbsent m (key r) (ent r)) m, P p.2 := by
  induction rows generalizing m with
  | nil => exact hm
  | cons r rows ih =>
    rw [List.foldl_cons]
    apply ih
    · intro p hp
      rcases mem_insertIfAbsent hp with hp | hp
      · exact hm p hp
      · rw [hp]
        exact hent r (List.mem_cons_self r rows)
    · exact fun r' hr' => hent r' (List.mem_cons_of_mem r hr')

theorem foldl_insert_nodup (key : Row → Str) (ent : Row → MapEntry) (rows : List Row)
    (m : List (Str × MapEntry)) (h : (m.map Prod.fst).Nodup) :
    (((rows.foldl (fun m r => insertIfAbsent m (key r) (ent r)) m)).map Prod.fst).Nodup := by
  induction rows generalizing m with
  | nil => exact h
  | cons r rows ih => exact ih _ (nodup_keys_insertIfAbsent h)

theorem uniqueCodesMapOf_nodup (cfg : SheetConfig) (t : Today) (rows : List Row) :
    ((uniqueCodesMapOf cfg t rows).map Prod.fst).Nodup := by
  unfold uniqueCodesMapOf
  apply foldl_insert_nodup (cellAt 0) (mkOverdueEntry cfg)
  apply foldl_insert_nodup (cellAt 0) mkDueTodayEntry
  simp

theorem mem_itemCodes_iff {m : List (Str × MapEntry)} {c : Str} {d : DueType} :
    c ∈ (m.filterMap (fun p =>
        if p.2.dtype = d then
          some (⟨p.1, p.2.dueDate, p.2.originalDueDate, p.2.delayStatus⟩ : DueItem)
        else none)).map DueItem.code ↔
    ∃ e, (c, e) ∈ m ∧ e.dtype = d := by
  rw [List.mem_map]
  constructor
  · rintro ⟨item, hitem, hcode⟩
    obtain ⟨p, hp, hf⟩ := List.mem_filterMap.mp hitem
    by_cases hd : p.2.dtype = d
    · rw [if_pos hd, Option.some_inj] at hf
      have hc : p.1 = c := by
        rw [← hcode, ← hf]
      refine ⟨p.2, ?_, hd⟩
      rw [← hc]
      exact hp
    · rw [if_neg hd] at hf
      exact absurd hf (by simp)
  · rintro ⟨e, hmem, hd⟩
    refine ⟨⟨c, e.dueDate, e.originalDueDate, e.delayStatus⟩, ?_, rfl⟩
    exact List.mem_filterMap.mpr ⟨(c, e), hmem, by rw [if_pos hd]⟩

theorem dueTodayRowsOf_lookup (cfg : SheetConfig) (t : Today) (rows : List Row) {row : Row}
    (h : row ∈ dueTodayRowsOf t rows) :
    ∃ e, lookupCode (cellAt 0 row) (uniqueCodesMapOf cfg t rows) = some e ∧
      e.dtype = .dueToday := by
  unfold uniqueCodesMapOf
  obtain ⟨e, he⟩ := Option.isSome_iff_exists.mp
    (foldl_insert_isSome (cellAt 0) mkDueTodayEntry (dueTodayRowsOf t rows) [] h)
  have hd : e.dtype = .dueToday :=
    @foldl_insert_entries_prop (fun e => e.dtype = .dueToday) (cellAt 0) mkDueTodayEntry
      (dueTodayRowsOf t rows) [] (by simp) (fun _ _ => rfl) (cellAt 0 row, e)
      (lookupCode_mem he)
  exact ⟨e, foldl_insert_preserves (cellAt 0) (mkOverdueEntry cfg) _ _ he, hd⟩

/-- C5: priority dedup of the report.  No invoice code appears in both
`dueTodayItems` and `overdueItems`; and any code with at least one row
classified due-today ends up in `dueTodayItems` and not in `overdueItems`,
even when other rows of the same code are overdue. -/
theorem C5_priority_dedup :
    (∀ (cfg : SheetConfig) (t : Today) (rows : List Row) (c : Str),
      c ∈ (readDueTodayData cfg t rows).1.map DueItem.code →
      c ∉ (readDueTodayData cfg t rows).2.map DueItem.code) ∧
    (∀ (cfg : SheetConfig) (t : Today) (rows : List Row) (row : Row),
      row ∈ dueTodayRowsOf t rows →
      cellAt 0 row ∈ (readDueTodayData cfg t rows).1.map DueItem.code ∧
      cellAt 0 row ∉ (readDueTodayData cfg t rows).2.map DueItem.code) := by
  constructor
  · intro cfg t rows c h1 h2
    by_cases hlen : rows.length ≤ 1
    · simp only [readDueTodayData, if_pos hlen] at h1
      simp at h1
    · simp only [readDueTodayData, if_neg hlen] at h1 h2
      rw [mem_itemCodes_iff] at h1 h2
      obtain ⟨e1, hm1, hd1⟩ := h1
      obtain ⟨e2, hm2, hd2⟩ := h2
      have hnd := uniqueCodesMapOf_nodup cfg t rows
      have l1 : lookupCode c (uniqueCodesMapOf cfg t rows) = some e1 := mem_lookupCode hm1 hnd
      have l2 : lookupCode c (uniqueCodesMapOf cfg t rows) = some e2 := mem_lookupCode hm2 hnd
      rw [l1, Option.some_inj] at l2
      subst l2
      rw [hd1] at hd2
      exact absurd hd2 (by decide)
  · intro cfg t rows row hrow
    have hlen : ¬rows.length ≤ 1 := by
      intro hl
      have hnil : dataRowsOf rows = [] := by
        unfold dataRowsOf
        exact List.drop_eq_nil_of_le hl
      unfold dueTodayRowsOf at hrow
      rw [hnil] at hrow
      exact absurd hrow (List.not_mem_nil row)
    obtain ⟨e, he, hd⟩ := dueTodayRowsOf_lookup cfg t rows hrow
    constructor
    · simp only [readDueTodayData, if_neg hlen]
      rw [mem_itemCodes_iff]
      exact ⟨e, lookupCode_mem he, hd⟩
    · intro h2
      simp only [readDueTodayData, if_neg hlen] at h2
      rw [mem_itemCodes_iff] at h2
      obtain ⟨e2, hm2, hd2⟩ := h2
      have hnd := uniqueCodesMapOf_nodup cfg t rows
      have l2 : lookupCode (cellAt 0 row) (uniqueCodesMapOf cfg t rows) = some e2 :=
        mem_lookupCode hm2 hnd
      rw [he, Option.some_inj] at l2
      subst l2
      rw [hd] at hd2
      exact absurd hd2 (by decide)

/-- Witness for C5: `HD001` has one due-today row and one overdue row; it
lands only in the due-today list. -/
theorem C5_witness :
    "HD001".toList ∈
      (readDueTodayData theConfig ⟨10, 3⟩
        [["x".toList], ["HD001".toList, [], "10/3".toList],
         ["HD001".toList, [], "7/3".toList]]).1.map DueItem.code ∧
    "HD001".toList ∉
      (readDueTodayData theConfig ⟨10, 3⟩
        [["x".toList], ["HD001".toList, [], "10/3".toList],
         ["HD001".toList, [], "7/3".toList]]).2.map DueItem.code :=
  C5_priority_dedup.2 theConfig ⟨10, 3⟩
    [["x".toList], ["HD001".toList, [], "10/3".toList], ["HD001".toList, [], "7/3".toList]]
    ["HD001".toList, [], "10/3".toList] (by decide)

/-! ## C10 -/

theorem mem_items_iff {m : List (Str × MapEntry)} {item : DueItem} {d : DueType} :
    item ∈ m.filterMap (fun p =>
        if p.2.dtype = d then
          some (⟨p.1, p.2.dueDate, p.2.originalDueDate, p.2.delayStatus⟩ : DueItem)
        else none) ↔
    ∃ p ∈ m, p.2.dtype = d ∧
      item = ⟨p.1, p.2.dueDate, p.2.originalDueDate, p.2.delayStatus⟩ := by
  rw [List.mem_filterMap]
  constructor
  · rintro ⟨p, hp, hf⟩
    by_cases hd : p.2.dtype = d
    · rw [if_pos hd, Option.some_inj] at hf
      exact ⟨p, hp, hd, hf.symm⟩
    · rw [if_neg hd] at hf
      exact absurd hf (by simp)
  · rintro ⟨p, hp, hd, hitem⟩
    exact ⟨p, hp, by rw [if_pos hd, hitem]⟩

theorem foldl_insert_entries_from (key : Row → Str) (ent : Row → MapEntry) (rows : List Row)
    (m : List (Str × MapEntry)) :
    ∀ p ∈ rows.foldl (fun m r => insertIfAbsent m (key r) (ent r)) m,
      p ∈ m ∨ ∃ r ∈ rows, p = (key r, ent r) := by
  induction rows generalizing m with
  | nil => exact fun p hp => Or.inl hp
  | cons r rows ih =>
    intro p hp
    rw [List.foldl_cons] at hp
    rcases ih _ p hp with hp' | ⟨r', hr', he⟩
    · rcases mem_insertIfAbsent hp' with h | h
      · exact Or.inl h
      · exact Or.inr ⟨r, List.mem_cons_self r rows, h⟩
    · exact Or.inr ⟨r', List.mem_cons_of_mem r hr', he⟩

/-- C10: the overdue report lists the raw column-C text as `dueDate`, even
when the overdue classification was decided by the rescheduled date of
column L, while due-today items report the effective (possibly rescheduled)
date.  The concrete row with original date `1/1` and rescheduled date `5/3`
is classified overdue through `5/3` but reported with `dueDate = 1/1`. -/
theorem C10_overdue_reports_original_date :
    (∀ (cfg : SheetConfig) (t : Today) (rows : List Row) (item : DueItem),
      item ∈ (readDueTodayData cfg t rows).2 →
      ∃ r ∈ overdueRowsOf t rows, item.code = cellAt 0 r ∧ item.dueDate = cellAt 2 r) ∧
    (∀ (cfg : SheetConfig) (t : Today) (rows : List Row) (item : DueItem),
      item ∈ (readDueTodayData cfg t rows).1 →
      ∃ r ∈ dueTodayRowsOf t rows,
        item.code = cellAt 0 r ∧ item.dueDate = effectiveDueDateOf r) ∧
    (classifyRow ⟨10, 3⟩
        ["HD9".toList, [], "1/1".toList, [], [], [], [], [], [], [], [], "5/3".toList] =
      .overdue ∧
     effectiveDueDateOf
        ["HD9".toList, [], "1/1".toList, [], [], [], [], [], [], [], [], "5/3".toList] =
      "5/3".toList ∧
     readDueTodayData theConfig ⟨10, 3⟩
        [["h".toList],
         ["HD9".toList, [], "1/1".toList, [], [], [], [], [], [], [], [], "5/3".toList]] =
      ([], [⟨"HD9".toList, "1/1".toList, none, some []⟩]) ∧
     readDueTodayData theConfig ⟨10, 3⟩
        [["h".toList],
         ["HD8".toList, [], "1/1".toList, [], [], [], [], [], [], [], [], "10/3".toList]] =
      ([⟨"HD8".toList, "10/3".toList, some "1/1".toList, none⟩], [])) := by
  refine ⟨?_, ?_, by decide, by decide, by decide, by decide⟩
  · intro cfg t rows item hitem
    by_cases hlen : rows.length ≤ 1
    · simp only [readDueTodayData, if_pos hlen] at hitem
      simp at hitem
    · simp only [readDueTodayData, if_neg hlen] at hitem
      rw [mem_items_iff] at hitem
      obtain ⟨p, hp, hd, hi⟩ := hitem
      unfold uniqueCodesMapOf at hp
      rcases foldl_insert_entries_from (cellAt 0) (mkOverdueEntry cfg)
          (overdueRowsOf t rows) _ p hp with hp' | ⟨r, hr, he⟩
      · have hdt : p.2.dtype = .dueToday :=
          @foldl_insert_entries_prop (fun e => e.dtype = .dueToday) (cellAt 0)
            mkDueTodayEntry (dueTodayRowsOf t rows) [] (by simp) (fun _ _ => rfl) p hp'
        rw [hdt] at hd
        exact absurd hd (by decide)
      · subst he
        subst hi
        exact ⟨r, hr, rfl, rfl⟩
  · intro cfg t rows item hitem
    by_cases hlen : rows.length ≤ 1
    · simp only [readDueTodayData, if_pos hlen] at hitem
      simp at hitem
    · simp only [readDueTodayData, if_neg hlen] at hitem
      rw [mem_items_iff] at hitem
      obtain ⟨p, hp, hd, hi⟩ := hitem
      unfold uniqueCodesMapOf at hp
      rcases foldl_insert_entries_from (cellAt 0) (mkOverdueEntry cfg)
          (overdueRowsOf t rows) _ p hp with hp' | ⟨r, hr, he⟩
      · rcases foldl_insert_entries_from (cellAt 0) mkDueTodayEntry
            (dueTodayRowsOf t rows) [] p hp' with hnil | ⟨r, hr, he⟩
        · exact absurd hnil (List.not_mem_nil p)
        · subst he
          subst hi
          exact ⟨r, hr, rfl, rfl⟩
      · subst he
        simp [mkOverdueEntry] at hd

/-- Witness for C10: the single overdue item of the concrete
rescheduled-overdue sheet traces back to an overdue row whose raw column-C
text it reports. -/
theorem C10_witness :
    ∃ r ∈ overdueRowsOf ⟨10, 3⟩
        [["h".toList],
         ["HD9".toList, [], "1/1".toList, [], [], [], [], [], [], [], [], "5/3".toList]],
      (⟨"HD9".toList, "1/1".toList, none, some []⟩ : DueItem).code = cellAt 0 r ∧
      (⟨"HD9".toList, "1/1".toList, none, some []⟩ : DueItem).dueDate = cellAt 2 r :=
  C10_overdue_reports_original_date.1 theConfig ⟨10, 3⟩
    [["h".toList],
     ["HD9".toList, [], "1/1".toList, [], [], [], [], [], [], [], [], "5/3".toList]]
    ⟨"HD9".toList, "1/1".toList, none, some []⟩ (by decide)

/-! ## C7 -/

theorem splitOn_cons (sep c : Char) (rest : Str) :
    splitOn sep (c :: rest) =
      match splitOn sep rest with
      | [] => [[c]]
      | s :: ss => if c == sep then [] :: s :: ss else (c :: s) :: ss := by
  rw [splitOn]

theorem splitOn_not_mem {c : Char} {s : Str} (h : c ∉ s) : splitOn c s = [s] := by
  induction s with
  | nil => rfl
  | cons a s ih =>
    rw [List.mem_cons] at h
    push_neg at h
    have hac : ¬a = c := fun hc => h.1 hc.symm
    rw [splitOn_cons, ih h.2]
    simp [hac]

theorem splitOn_append {c : Char} {a b : Str} (h : c ∉ a) :
    splitOn c (a ++ c :: b) = a :: splitOn c b := by
  induction a with
  | nil =>
    rw [List.nil_append, splitOn_cons]
    cases hsb : splitOn c b with
    | nil => exact absurd hsb (splitOn_ne_nil c b)
    | cons s ss => simp
  | cons x a ih =>
    rw [List.mem_cons] at h
    push_neg at h
    have hxc : ¬x = c := fun hc => h.1 hc.symm
    rw [List.cons_append, splitOn_cons, ih h.2]
    simp [hxc]

/-- C7: ambiguous-date reconciliation.  For every slash-separated triple,
both the filter pass and the same-day-count pass of `readSheetData` swap
the first two components exactly when the integer value of the first
component exceeds 12, and return the text unchanged otherwise. -/
theorem C7_reconcile_ambiguous_date :
    ∀ p1 p2 p3 : Str, '/' ∉ p1 → '/' ∉ p2 → '/' ∉ p3 →
      normalizeReceiveDateFilterPass (p1 ++ ['/'] ++ p2 ++ ['/'] ++ p3) =
        (if firstComponentGT12 p1 then p2 ++ ['/'] ++ p1 ++ ['/'] ++ p3
         else p1 ++ ['/'] ++ p2 ++ ['/'] ++ p3) ∧
      normalizeReceiveDateCountPass (p1 ++ ['/'] ++ p2 ++ ['/'] ++ p3) =
        (if firstComponentGT12 p1 then p2 ++ ['/'] ++ p1 ++ ['/'] ++ p3
         else p1 ++ ['/'] ++ p2 ++ ['/'] ++ p3) := by
  intro p1 p2 p3 h1 h2 h3
  have hshape : p1 ++ ['/'] ++ p2 ++ ['/'] ++ p3 = p1 ++ '/' :: (p2 ++ '/' :: p3) := by
    simp
  have hsplit : splitOn '/' (p1 ++ ['/'] ++ p2 ++ ['/'] ++ p3) = [p1, p2, p3] := by
    rw [hshape, splitOn_append h1, splitOn_append h2, splitOn_not_mem h3]
  have hcond : p1 ++ ['/'] ++ p2 ++ ['/'] ++ p3 ≠ [] ∧
      (p1 ++ ['/'] ++ p2 ++ ['/'] ++ p3).contains '/' = true := by
    constructor
    · simp
    · show List.elem '/' (p1 ++ ['/'] ++ p2 ++ ['/'] ++ p3) = true
      rw [List.elem_iff]
      simp
  constructor
  · simp only [normalizeReceiveDateFilterPass]
    rw [if_pos hcond, hsplit]
    norm_num
  · simp only [normalizeReceiveDateCountPass]
    rw [if_pos hcond, hsplit]
    norm_num

/-- Witness for C7 on concrete triples: `25/03/2025` is swapped to
month-first, `03/25/2025` is left unchanged, in both passes. -/
theorem C7_witness :
    (normalizeReceiveDateFilterPass ("25".toList ++ ['/'] ++ "03".toList ++ ['/'] ++
        "2025".toList) =
      (if firstComponentGT12 "25".toList then
        "03".toList ++ ['/'] ++ "25".toList ++ ['/'] ++ "2025".toList
       else "25".toList ++ ['/'] ++ "03".toList ++ ['/'] ++ "2025".toList)) ∧
    (normalizeReceiveDateCountPass ("03".toList ++ ['/'] ++ "25".toList ++ ['/'] ++
        "2025".toList) =
      (if firstComponentGT12 "03".toList then
        "25".toList ++ ['/'] ++ "03".toList ++ ['/'] ++ "2025".toList
       else "03".toList ++ ['/'] ++ "25".toList ++ ['/'] ++ "2025".toList)) :=
  ⟨(C7_reconcile_ambiguous_date "25".toList "03".toList "2025".toList
      (by decide) (by decide) (by decide)).1,
   (C7_reconcile_ambiguous_date "03".toList "25".toList "2025".toList
      (by decide) (by decide) (by decide)).2⟩



/-! ## C9 -/

theorem rowsForInvoice_ne_nil (cfg : SheetConfig) (inv : Invoice) :
    rowsForInvoice cfg inv ≠ [] := by
  simp only [rowsForInvoice]
  split
  · rename_i h
    simp [h]
  · simp

theorem buildRows_ne_nil (cfg : SheetConfig) {l : List Invoice} (h : l ≠ []) :
    buildRows cfg l ≠ [] := by
  cases l with
  | nil => exact absurd rfl h
  | cons inv t =>
    unfold buildRows
    rw [List.flatMap_cons]
    intro hc
    rw [List.append_eq_nil] at hc
    exact rowsForInvoice_ne_nil cfg inv hc.1

/-- C9 (amended): failures in the spreadsheet access check, the metadata
read, sheet creation, the header write, the column-A read, row insertion,
the value write and the cell formatting all abort the run by throwing; a
failure inside the dropdown/validation setup, however, is caught and logged
by `setupDropdowns` and the run completes normally. -/
theorem C9_failure_propagation :
    (∀ (cfg : SheetConfig) (env : SheetEnv) (invoices : List Invoice) (e : Err),
      env.accessCheck = .error e →
      addToGoogleSheet cfg env invoices = .error (accessErr e)) ∧
    (∀ (cfg : SheetConfig) (env : SheetEnv) (invoices : List Invoice) (e : Err),
      env.accessCheck = .ok () → env.getMeta = .error e →
      addToGoogleSheet cfg env invoices = .error e) ∧
    (∀ (cfg : SheetConfig) (env : SheetEnv) (invoices : List Invoice) (e : Err) (sid : Nat),
      env.accessCheck = .ok () → env.getMeta = .ok ⟨false, sid⟩ →
      env.createSheet = .error e →
      addToGoogleSheet cfg env invoices = .error e) ∧
    (∀ (cfg : SheetConfig) (env : SheetEnv) (invoices : List Invoice) (e : Err) (sid sid2 : Nat),
      env.accessCheck = .ok () → env.getMeta = .ok ⟨false, sid⟩ →
      env.createSheet = .ok sid2 → env.writeHeaders = .error e →
      addToGoogleSheet cfg env invoices = .error e) ∧
    (∀ (cfg : SheetConfig) (env : SheetEnv) (invoices : List Invoice) (e : Err) (sid : Nat),
      env.accessCheck = .ok () → env.getMeta = .ok ⟨true, sid⟩ →
      env.readColA = .error e →
      addToGoogleSheet cfg env invoices = .error e) ∧
    (∀ (cfg : SheetConfig) (env : SheetEnv) (invoices : List Invoice) (e : Err) (sid : Nat)
      (colA : List Row),
      env.accessCheck = .ok () → env.getMeta = .ok ⟨true, sid⟩ →
      env.readColA = .ok colA →
      filterNewInvoices invoices (extractExistingCodes colA) ≠ [] →
      env.insertRows = .error e →
      addToGoogleSheet cfg env invoices = .error e) ∧
    (∀ (cfg : SheetConfig) (env : SheetEnv) (invoices : List Invoice) (e : Err) (sid : Nat)
      (colA : List Row),
      env.accessCheck = .ok () → env.getMeta = .ok ⟨true, sid⟩ →
      env.readColA = .ok colA →
      filterNewInvoices invoices (extractExistingCodes colA) ≠ [] →
      env.insertRows = .ok () → env.writeValues = .error e →
      addToGoogleSheet cfg env invoices = .error e) ∧
    (∀ (cfg : SheetConfig) (env : SheetEnv) (invoices : List Invoice) (e : Err) (sid : Nat)
      (colA : List Row),
      env.accessCheck = .ok () → env.getMeta = .ok ⟨true, sid⟩ →
      env.readColA = .ok colA →
      filterNewInvoices invoices (extractExistingCodes colA) ≠ [] →
      env.insertRows = .ok () → env.writeValues = .ok () → env.formatCells = .error e →
      addToGoogleSheet cfg env invoices = .error e) ∧
    (∀ (cfg : SheetConfig) (env : SheetEnv) (invoices : List Invoice) (e : Err) (sid : Nat)
      (colA : List Row),
      env.accessCheck = .ok () → env.getMeta = .ok ⟨true, sid⟩ →
      env.readColA = .ok colA →
      filterNewInvoices invoices (extractExistingCodes colA) ≠ [] →
      env.insertRows = .ok () → env.writeValues = .ok () → env.formatCells = .ok () →
      setupDropdownsRaw env = .error e →
      addToGoogleSheet cfg env invoices =
        .ok (buildRows cfg (filterNewInvoices invoices (extractExistingCodes colA)))) := by
  refine ⟨?_, ?_, ?_, ?_, ?_, ?_, ?_, ?_, ?_⟩
  · intro cfg env invoices e h
    simp [addToGoogleSheet, h, Bind.bind, Except.bind, throw, throwThe, MonadExceptOf.throw,
      Functor.map, Except.map, pure, Except.pure]
  · intro cfg env invoices e h1 h2
    simp [addToGoogleSheet, h1, h2, Bind.bind, Except.bind, throw, throwThe, MonadExceptOf.throw,
      Functor.map, Except.map, pure, Except.pure]
  · intro cfg env invoices e sid h1 h2 h3
    simp [addToGoogleSheet, h1, h2, h3, Bind.bind, Except.bind, throw, throwThe,
      MonadExceptOf.throw, Functor.map, Except.map, pure, Except.pure]
  · intro cfg env invoices e sid sid2 h1 h2 h3 h4
    simp [addToGoogleSheet, h1, h2, h3, h4, Bind.bind, Except.bind, throw, throwThe,
      MonadExceptOf.throw, Functor.map, Except.map, pure, Except.pure]
  · intro cfg env invoices e sid h1 h2 h3
    simp [addToGoogleSheet, h1, h2, h3, Bind.bind, Except.bind, throw, throwThe,
      MonadExceptOf.throw, Functor.map, Except.map, pure, Except.pure]
  · intro cfg env invoices e sid colA h1 h2 h3 hne h4
    simp [addToGoogleSheet, h1, h2, h3, hne, h4, List.length_pos.mpr (buildRows_ne_nil cfg hne),
      Bind.bind, Except.bind, throw, throwThe, MonadExceptOf.throw, Functor.map, Except.map,
      pure, Except.pure]
  · intro cfg env invoices e sid colA h1 h2 h3 hne h4 h5
    simp [addToGoogleSheet, h1, h2, h3, hne, h4, h5,
      List.length_pos.mpr (buildRows_ne_nil cfg hne), Bind.bind, Except.bind, throw, throwThe,
      MonadExceptOf.throw, Functor.map, Except.map, pure, Except.pure]
  · intro cfg env invoices e sid colA h1 h2 h3 hne h4 h5 h6
    simp [addToGoogleSheet, h1, h2, h3, hne, h4, h5, h6,
      List.length_pos.mpr (buildRows_ne_nil cfg hne), Bind.bind, Except.bind, throw, throwThe,
      MonadExceptOf.throw, Functor.map, Except.map, pure, Except.pure]
  · intro cfg env invoices e sid colA h1 h2 h3 hne h4 h5 h6 h7
    simp [addToGoogleSheet, setupDropdowns, h1, h2, h3, hne, h4, h5, h6, h7,
      List.length_pos.mpr (buildRows_ne_nil cfg hne), Bind.bind, Except.bind, throw, throwThe,
      MonadExceptOf.throw, Functor.map, Except.map, pure, Except.pure]

/-- C9 counterexample: the claim as stated also covers dropdown/validation
setup, but when exactly that `batchUpdate` fails the run still completes
and returns normally, because `setupDropdowns` catches and only logs its
own errors. -/
theorem C9_counterexample :
    envDropFail.applyRules = Except.error "boom".toList ∧
    addToGoogleSheet theConfig envDropFail
        [⟨"HD1".toList, ⟨2025, 3, 2, 9, 0⟩, [], [], []⟩] =
      .ok (buildRows theConfig [⟨"HD1".toList, ⟨2025, 3, 2, 9, 0⟩, [], [], []⟩]) :=
  ⟨rfl, rfl⟩

/-- Witness for C9 at concrete environments: an access-check failure aborts
the run, and a dropdown-rules failure does not. -/
theorem C9_witness :
    addToGoogleSheet theConfig
        ⟨.error "down".toList, .ok ⟨true, 1⟩, .ok 0, .ok (), .ok [], .ok (), .ok (), .ok (),
         .ok (), .ok [], .ok ()⟩ [] =
      .error (accessErr "down".toList) ∧
    addToGoogleSheet theConfig envDropFail
        [⟨"HD1".toList, ⟨2025, 3, 2, 9, 0⟩, [], [], []⟩] =
      .ok (buildRows theConfig
        (filterNewInvoices [⟨"HD1".toList, ⟨2025, 3, 2, 9, 0⟩, [], [], []⟩]
          (extractExistingCodes []))) :=
  ⟨C9_failure_propagation.1 theConfig
    ⟨.error "down".toList, .ok ⟨true, 1⟩, .ok 0, .ok (), .ok [], .ok (), .ok (), .ok (),
     .ok (), .ok [], .ok ()⟩ [] "down".toList rfl,
   C9_failure_propagation.2.2.2.2.2.2.2.2 theConfig envDropFail
    [⟨"HD1".toList, ⟨2025, 3, 2, 9, 0⟩, [], [], []⟩] "boom".toList 1 []
    rfl rfl rfl (by decide) rfl rfl rfl rfl⟩

end AnsMigration
